import Mathlib

/-!
Verification of `pchain_compile` (ParallelChain smart-contract build tool)
against its natural-language specification.

The development shallowly embeds the Rust sources:
* `src/error.rs`      — the `Error` enum and `Error::detail`
* `src/docker.rs`     — `pull_image`, `copy_files`, `copy_files_from`,
  `build_contracts`, `remove_container`, `create_tar_gz` (its root argument),
  `files_from_tar_gz`, `execute`
* `src/manifests.rs`  — `get_dependency_paths`, `get_absolute_path`
* `src/build.rs`      — the wasm artifact naming

Effectful collaborators (the Docker daemon, the host filesystem) are modelled
as explicit inputs: each daemon interaction the code performs becomes a field
of an environment record holding that interaction's outcome, and the
embedded function folds over those outcomes exactly as the Rust control flow
does.  Machine strings are Lean `String`s, byte buffers are `List Nat`.
-/

deriving instance DecidableEq for Except

namespace PchainCompile

/-- The error enum from `src/error.rs`.  The `BuildTimeout` variant is
referenced by `src/docker.rs` (`Error::BuildTimeout`) and listed in the
specification's error taxonomy, but the checked-in `src/error.rs` predates it;
the constructor is included here so that `execute` can be embedded
(Modelled from the spec: the `BuildTimeout` error kind). -/
inductive Error where
  | BuildFailure (msg : String)
  | BuildFailureWithLogs (log : String)
  | BuildTimeout
  | DockerDaemonFailure
  | ArtifactRemovalFailure
  | ManifestFailure
  | InvalidSourcePath
  | InvalidDestinationPath
  | InvalidDependencyPath
  | CreateTempDir
  | UnkownDockerImageTag (tag : String)
deriving DecidableEq

/-- `Error::detail` from `src/error.rs` (the human-oriented detail text).
The checked-in `src/error.rs` has no arm for `BuildTimeout` (see `Error`);
it is given the empty string here and no claim depends on it. -/
def Error.detail : Error → String
  | .BuildTimeout => ""
  | .ArtifactRemovalFailure => "The compilation was successful, but pchain-compile failed to stop its Docker containers. Please remove them manually."
  | .BuildFailure e => "\nDetails: " ++ e ++ "\nPlease rectify the errors and build your source code again."
  | .BuildFailureWithLogs log => "There maybe some problems in the source code.\nBuilding log is as follows:\n\n" ++ log ++ "\n"
  | .DockerDaemonFailure => "Failed to compile.\nDetails: Docker Daemon Failure. Check if Docker is running on your machine and confirm read/write access privileges."
  | .ManifestFailure => "Failed to compile.\nDetails: Manifest File Not Found. Check if the manifest file exists on the source code path."
  | .InvalidSourcePath => "Failed to compile.\nDetails: Source Code Path Not Valid. Check if you have provided the correct path to your source code directory and confirm write access privileges."
  | .InvalidDestinationPath => "\nDetails: Destination Path Not Valid. Check if you have provided the correct path to save your optimized WASM binary and confirm write access privileges."
  | .InvalidDependencyPath => "\nDetails: Dependency Paths Specified Within Smart Contract Crate Not Valid. Check if you have provided the correct path to the dependencies on your source"
  | .CreateTempDir => "\nDetails: The compilation process requires creating a temporary folder in your machine. Please check if the program has write permission to create folder."
  | .UnkownDockerImageTag tag => "\nDetails: The docker image tag (" ++ tag ++ ") is not recognised. Please choose tag from dockerhub https://hub.docker.com/r/parallelchainlab/pchain_compile"

/-! ### String helpers embedding Rust `str` operations

`s.replace('c', "r")` with a one-character pattern and a one-character
replacement maps that character pointwise; `s.replace(':', "")` deletes the
character; `s.trim_start_matches('/')` drops every leading occurrence. -/

/-- Rust `s.replace(c, r)` for one-character pattern `c` and replacement `r`. -/
def rustReplaceChar (c r : Char) (s : String) : String :=
  String.mk (s.data.map (fun x => if x = c then r else x))

/-- Rust `s.replace(c, "")` for a one-character pattern: delete the character. -/
def rustDeleteChar (c : Char) (s : String) : String :=
  String.mk (s.data.filter (fun x => x ≠ c))

/-- Rust `s.trim_start_matches(c)`: drop every leading occurrence of `c`. -/
def rustTrimStartChar (c : Char) (s : String) : String :=
  String.mk (s.data.dropWhile (fun x => x = c))

/-! ### Artifact naming (`src/build.rs` line 119, `src/operations/build.rs` line 131)

`format!("{}{}", package_name, ".wasm").replace("-", "_")`. -/

/-- The derived output artifact filename:
`format!("{}{}", package_name, ".wasm").replace("-", "_")`. -/
def wasm_file (package_name : String) : String :=
  rustReplaceChar '-' '_' (package_name ++ ".wasm")

/-! ### Image pull (`src/docker.rs::pull_image`) -/

/-- The dockerhub repo constant `PCHAIN_COMPILE_IMAGE` from `src/docker.rs`. -/
def PCHAIN_COMPILE_IMAGE : String := "parallelchainlab/pchain_compile"

/-- One status event returned by `Docker::create_image` (bollard
`CreateImageInfo`), restricted to the field the code reads. -/
structure CreateImageInfo where
  error : Option String
deriving DecidableEq

/-- `pull_image` from `src/docker.rs`.  `daemon` is the outcome of
`docker.create_image(..).try_collect()`: `none` when the daemon call fails,
`some infos` the collected status events otherwise. -/
def pull_image (daemon : Option (List CreateImageInfo)) (tag : String) :
    Except Error String :=
  let from_image := PCHAIN_COMPILE_IMAGE ++ ":" ++ tag
  match daemon with
  | none => .error .DockerDaemonFailure
  | some infos =>
    match infos with
    | [] => .error .DockerDaemonFailure
    | first :: _ =>
      if first.error.isSome then .error .DockerDaemonFailure
      else .ok from_image

/-! ### Command execution engine (`src/docker.rs::execute`) -/

/-- The part of bollard's `ExecInspectResponse` that `execute` can observe:
the running state checked by the poll loop and the exit code (which the
code never reads). -/
structure ExecInspectResponse where
  running : Option Bool
  exit_code : Option Int
deriving DecidableEq

/-- One outcome of `docker.inspect_exec` inside the poll loop. -/
inductive InspectPoll where
  | ok (resp : ExecInspectResponse)
  | failed
deriving DecidableEq

/-- The two shapes of `bollard::exec::StartExecResults`. -/
inductive StartKind where
  | attached
  | detached
deriving DecidableEq

/-- Environment for one `execute` call: the outcome of each daemon
interaction the code performs, in program order.  `polls` is the sequence of
`inspect_exec` outcomes the poll loop would observe at its ≈20ms interval
before the `tokio::time::timeout` deadline fires; an execution that is still
running when the deadline arrives is an environment whose `polls` list is
exhausted with every response still `running`. -/
structure ExecEnv where
  createExec : Except String Unit
  startExec : Except String StartKind
  collected : Except String String
  polls : List InspectPoll

/-- Outcome of the bounded-wait poll loop inside `execute`. -/
inductive PollOutcome where
  | finished
  | inspectFailed
  | timedOut
deriving DecidableEq

/-- The poll loop of `execute`: return `true` (finished) once
`inspect_result.running != Some(true)`, return `false` on an inspect error,
and keep looping otherwise; exhausting the deadline's poll budget is the
`tokio::time::timeout` elapsing. -/
def poll_running : List InspectPoll → PollOutcome
  | [] => .timedOut
  | .failed :: _ => .inspectFailed
  | .ok resp :: rest =>
    if resp.running ≠ some true then .finished else poll_running rest

/-- `execute` from `src/docker.rs` lines 373-451.  `log_output` is the
capture flag, `timeout_set` whether `timeout_secs` is `Some`. -/
def execute (env : ExecEnv) (log_output : Bool) (timeout_set : Bool) :
    Except Error String :=
  match env.createExec with
  | .error e => .error (.BuildFailure e)
  | .ok _ =>
    match env.startExec with
    | .error e => .error (.BuildFailure e)
    | .ok .detached => .error (.BuildFailure "Execution Result Not Attached")
    | .ok .attached =>
      match (if log_output then env.collected else .ok "") with
      | .error e => .error (.BuildFailure e)
      | .ok log_outputs =>
        if timeout_set then
          match poll_running env.polls with
          | .timedOut => .error .BuildTimeout
          | .inspectFailed => .error (.BuildFailureWithLogs log_outputs)
          | .finished => .ok log_outputs
        else .ok log_outputs

/-! ### Archive transport, pull side
(`src/docker.rs::files_from_tar_gz`, `src/docker.rs::copy_files_from`) -/

/-- Tar entry kinds distinguished by the claims: regular files and
directories. -/
inductive TarEntryType where
  | file
  | directory
deriving DecidableEq

/-- One entry of the downloaded tar archive, restricted to what
`files_from_tar_gz` observes: `ok` models the per-entry `e.ok()` filter
(whether the iterator yielded `Ok(entry)`), `size` is the header size
checked by `entry.size() > 0`, `content` the bytes `read_to_end` returns. -/
structure TarEntry where
  ok : Bool
  path : List String
  etype : TarEntryType
  size : Nat
  content : List Nat
deriving DecidableEq

/-- `entry.path().file_name()`: the final component of the entry's path. -/
def tarFileName (path : List String) : String := path.getLast?.getD ""

/-- `files_from_tar_gz` from `src/docker.rs` lines 348-371.  The argument is
the outcome of `Archive::new(bytes).entries()`: an error string, or the
sequence of entry results. -/
def files_from_tar_gz (parsed : Except String (List TarEntry)) :
    Except Error (List (String × List Nat)) :=
  match parsed with
  | .error e => .error (.BuildFailure e)
  | .ok entries =>
    .ok (((entries.filter (fun e => e.ok)).filter (fun e => 0 < e.size)).filterMap
      (fun e =>
        if e.content.isEmpty then none
        else some (tarFileName e.path, e.content)))

/-- Destination-filesystem behaviour for `copy_files_from`'s save loop:
whether `File::create(output_path.join(name))` and the subsequent
`fs.write(content)` succeed for a given file name. -/
structure DestFS where
  createOk : String → Bool
  writeOk : String → Bool

/-- The save loop of `copy_files_from` (lines 188-197): write each returned
file into the destination directory, stopping at the first failure.  The
destination directory is modelled as a map from file name to content; a
successful `File::create` + `write` overwrites the entry at that name. -/
def write_files (fs : DestFS) :
    List (String × List Nat) → (String → Option (List Nat)) →
    Except Error (String → Option (List Nat))
  | [], store => .ok store
  | (name, content) :: rest, store =>
    if fs.createOk name then
      if fs.writeOk name then
        write_files fs rest (fun p => if p = name then some content else store p)
      else .error (.BuildFailure "Fail to write the compiled contract to destination path.")
    else .error (.BuildFailure "Fail to access to destination path.")

/-- Outcome of `docker.download_from_container(..).try_collect()` followed by
parsing: `failed` is a transport error (with its message), otherwise the
parse outcome of the downloaded bytes as fed to `files_from_tar_gz`. -/
inductive DownloadResult where
  | failed (msg : String)
  | data (parsed : Except String (List TarEntry))

/-- `copy_files_from` from `src/docker.rs` lines 163-200, returning the state
of the destination directory on success. -/
def copy_files_from (dl : DownloadResult) (fs : DestFS) (build_log : String)
    (store : String → Option (List Nat)) :
    Except Error (String → Option (List Nat)) :=
  match dl with
  | .failed e => .error (.BuildFailure e)
  | .data parsed =>
    match files_from_tar_gz parsed with
    | .error e => .error e
    | .ok files_content =>
      if files_content.isEmpty then .error (.BuildFailureWithLogs build_log)
      else write_files fs files_content store

/-- Observe the destination directory at one file name after
`copy_files_from`; `none` when the call failed. -/
def storeAfter (r : Except Error (String → Option (List Nat))) (name : String) :
    Option (Option (List Nat)) :=
  match r with
  | .error _ => none
  | .ok store => some (store name)

/-! ### Archive transport, push side
(`src/docker.rs::copy_files`, `src/docker.rs::create_tar_gz`) -/

/-- The path sanitization of `copy_files` lines 115-120 and of
`build_contracts` lines 211-214:
`.replace(':', "").replace('\\', "/").replace(' ', "_")`. -/
def sanitize_source_path (s : String) : String :=
  rustReplaceChar ' ' '_' (rustReplaceChar '\\' '/' (rustDeleteChar ':' s))

/-- `save_to_path` of `copy_files`: the sanitization followed by
`.trim_start_matches('/')`. -/
def save_to_path (s : String) : String :=
  rustTrimStartChar '/' (sanitize_source_path s)

/-- Environment for one `copy_files` call: the outcome of creating the
temporary `.tar.gz`, reading it back, and uploading it. -/
structure PushEnv where
  tarCreateOk : Bool
  fileOpenOk : Bool
  uploadOk : Bool
deriving DecidableEq

/-- Observable trace of one `copy_files` call: its result, the root path the
archive was built at (the `tar_path` argument of `create_tar_gz`, i.e. the
`tar.append_dir_all(tar_path, src_path)` destination), and whether
`std::fs::remove_file` on the temporary archive was executed. -/
structure PushTrace where
  result : Except Error Unit
  tarRoot : String
  removedTmp : Bool

/-- `copy_files` from `src/docker.rs` lines 110-160.  Archive creation or
read-back failure returns before the `remove_file`; after the upload the
temporary file is removed and then the upload result is returned. -/
def copy_files (env : PushEnv) (source_path : String) : PushTrace :=
  let save_to := save_to_path source_path
  if env.tarCreateOk = false then
    { result := .error .DockerDaemonFailure, tarRoot := save_to, removedTmp := false }
  else if env.fileOpenOk = false then
    { result := .error .DockerDaemonFailure, tarRoot := save_to, removedTmp := false }
  else
    { result := if env.uploadOk then .ok () else .error .DockerDaemonFailure,
      tarRoot := save_to,
      removedTmp := true }

/-! ### Build pipeline command plan (`src/docker.rs::build_contracts`) -/

/-- `DOCKER_EXEC_TIME_LIMIT` from `src/docker.rs`: the bound (in seconds) on
every post-processing step. -/
def DOCKER_EXEC_TIME_LIMIT : Nat := 15

/-- One command executed inside the container: working directory and argv. -/
structure DockerCmd where
  working_dir : String
  cmd : List String
deriving DecidableEq

/-- The primary cargo build command of `build_contracts` lines 221-240:
`--locked` is set exactly when `locked && Cargo.lock exists`. -/
def cmd_cargo_build (use_cargo_lock : Bool) : List String :=
  if use_cargo_lock then
    ["cargo", "build", "--locked", "--target", "wasm32-unknown-unknown", "--release"]
  else
    ["cargo", "build", "--target", "wasm32-unknown-unknown", "--release"]

/-- The command plan of one `build_contracts` call: the primary build command
(run with captured output and no timeout) and the post-processing commands
(each run with the `DOCKER_EXEC_TIME_LIMIT` bound, output not captured). -/
structure BuildPlan where
  primary : DockerCmd
  post : List DockerCmd
deriving DecidableEq

/-- The commands issued by `build_contracts` (`src/docker.rs` lines 204-320)
as a function of the `locked` option, of whether `Cargo.lock` exists at the
package root, of the (pre-sanitization) source path and of the wasm file
name.  The `mv Cargo.lock /result` staging step is appended when `locked` is
set (lines 296-304), independently of the lock file's existence. -/
def build_contracts_plan (locked cargo_lock_exists : Bool)
    (source_path wasm : String) : BuildPlan :=
  let source_path_str := sanitize_source_path source_path
  let working_folder_code := "/" ++ source_path_str
  let working_folder_build :=
    "/" ++ source_path_str ++ "/target/wasm32-unknown-unknown/release"
  let output_folder := "/result"
  let output_file := output_folder ++ "/" ++ wasm
  let use_cargo_lock := locked && cargo_lock_exists
  { primary := ⟨working_folder_code, cmd_cargo_build use_cargo_lock⟩
    post :=
      [⟨working_folder_build, ["chmod", "+x", "/root/bin/wasm-opt"]⟩,
       ⟨working_folder_build,
        ["/root/bin/wasm-opt", "-Oz", wasm, "--output", "temp.wasm"]⟩,
       ⟨working_folder_build,
        ["wasm-snip", "temp.wasm", "--output", "temp2.wasm",
         "--snip-rust-fmt-code", "--snip-rust-panicking-code"]⟩,
       ⟨working_folder_build,
        ["/root/bin/wasm-opt", "--dce", "temp2.wasm", "--output", "optimized.wasm"]⟩,
       ⟨working_folder_build, ["mkdir", "-p", output_folder]⟩,
       ⟨working_folder_build, ["mv", "optimized.wasm", output_file]⟩] ++
      (if locked then [⟨working_folder_code, ["mv", "Cargo.lock", output_folder]⟩]
       else []) }

/-- The lock-file staging command appended by `build_contracts` when `locked`
is set. -/
def lock_staging_cmd (source_path : String) : DockerCmd :=
  ⟨"/" ++ sanitize_source_path source_path, ["mv", "Cargo.lock", "/result"]⟩

/-! ### Sandbox removal (`src/docker.rs::remove_container`) -/

/-- The `RemoveContainerOptions` passed by `remove_container`. -/
structure RemoveContainerOptions where
  v : Bool
  link : Bool
  force : Bool
deriving DecidableEq

/-- The options literal from `src/docker.rs` lines 324-328. -/
def remove_option : RemoveContainerOptions :=
  { v := true, link := false, force := true }

/-- `remove_container` from `src/docker.rs` lines 323-334.  `daemon` gives
the daemon's response to removing a given container name (an error for an
already-removed or never-created name is just an `Err` response).  The call
returns its result together with the list of removal requests it issued. -/
def remove_container (daemon : String → Except String Unit)
    (container_name : String) :
    Except Error Unit × List (String × RemoveContainerOptions) :=
  (match daemon container_name with
   | .error _ => .error .ArtifactRemovalFailure
   | .ok _ => .ok (),
   [(container_name, remove_option)])

/-- Modelled from the spec: the cleanup step of the Build Orchestrator
(`build_target_with_docker`, referenced from `src/config.rs` but absent from
the sources).  Per the spec, "Cleanup removes the sandbox; its own failure is
logged but does not change the already-decided success/failure outcome of
the build": the already-decided outcome is returned unchanged, a failed
removal is reported as a warning detail alongside it, and exactly the one
removal request of `remove_container` is issued. -/
def orchestrator_finish (outcome : Except Error String)
    (daemon : String → Except String Unit) (container_name : String) :
    Except Error String × List String × List (String × RemoveContainerOptions) :=
  let removal := remove_container daemon container_name
  (outcome,
   match removal.1 with
   | .error e => [e.detail]
   | .ok _ => [],
   removal.2)

/-! ### Dependency resolver (`src/manifests.rs`)

The host filesystem is modelled by `DepFS`: `dirs` is the (finite) universe
of canonical directory paths that exist, `manifest` gives the parse result
of `dir/Cargo.toml` as the list of dependency entries (`some p` an entry
whose `detail()` carries `path: Some(p)`, `none` an entry without a local
path), `canon` is `dunce::canonicalize` and `writable` the
`access(AccessMode::WRITE)` check.

The Rust recursion carries a `&mut HashSet<String>`; it is embedded as an
explicitly threaded `List String` (membership-only, inserted by cons).  The
recursion depth is bounded by a `fuel` parameter consumed once per descent
into a newly inserted dependency directory; a result whose second component
is `none` means the fuel ran out, and the termination theorem shows this
never happens once `fuel` reaches the number of directories. -/

/-- The filesystem as observed by the dependency resolver. -/
structure DepFS where
  dirs : List String
  manifest : String → Option (List (Option String))
  canon : String → Option String
  writable : String → Bool

/-- `get_absolute_path` from `src/manifests.rs` lines 52-63:
`dunce::canonicalize` then the write-access check, both failing with
`InvalidDependencyPath`. -/
def get_absolute_path (fs : DepFS) (dir : String) : Except Error String :=
  match fs.canon dir with
  | none => .error .InvalidDependencyPath
  | some p => if fs.writable p then .ok p else .error .InvalidDependencyPath

/-- Rust `Path::join` on Unix: an absolute right operand (leading `/`)
replaces the base. -/
def path_join (base p : String) : String :=
  if p.data.head? = some '/' then p else base ++ "/" ++ p

/-- The value `get_absolute_path(p).unwrap_or(v2)` once the root-relative
resolution has succeeded with `v2`. -/
def derived_path (fs : DepFS) (p v2 : String) : String :=
  match get_absolute_path fs p with
  | .ok v1 => v1
  | .error _ => v2

/-- The `for dependency in source_manifest.dependencies.values()` loop of
`get_dependency_paths` (`src/manifests.rs` lines 23-39), parameterized by the
`descend` function used for the recursive call on a newly inserted
dependency directory.

For an entry `some p` the code computes
`get_absolute_path(p).unwrap_or(get_absolute_path(source_path.join(p))?)`:
both resolutions are evaluated (the `unwrap_or` argument is eager), an error
of the root-relative one propagates via `?`, and otherwise the as-given
result is preferred.  A derived path already in the set is skipped; a fresh
one is inserted before descending, and the descent's error (but not its set
mutations) is discarded (`let _ = ...`). -/
def dep_entries_loop (fs : DepFS)
    (descend : String → List String → List String × Option (Except Error Unit))
    (root : String) :
    List (Option String) → List String → List String × Option (Except Error Unit)
  | [], deps => (deps, some (.ok ()))
  | none :: rest, deps => dep_entries_loop fs descend root rest deps
  | some p :: rest, deps =>
    match get_absolute_path fs (path_join root p) with
    | .error e => (deps, some (.error e))
    | .ok v2 =>
      if derived_path fs p v2 ∈ deps then dep_entries_loop fs descend root rest deps
      else
        match descend (derived_path fs p v2) (derived_path fs p v2 :: deps) with
        | (d, none) => (d, none)
        | (d, some _) => dep_entries_loop fs descend root rest d

/-- The recursive call `get_dependency_paths(Path::new(&derived_path), ..)`
made on a newly inserted dependency directory, with `fuel` bounding the
remaining recursion depth. -/
def dep_descend (fs : DepFS) :
    Nat → String → List String → List String × Option (Except Error Unit)
  | 0, _, deps => (deps, none)
  | fuel + 1, dir, deps =>
    match fs.manifest dir with
    | none => (deps, some (.error .ManifestFailure))
    | some entries => dep_entries_loop fs (dep_descend fs fuel) dir entries deps

/-- `get_dependency_paths` from `src/manifests.rs` lines 16-42. -/
def get_dependency_paths (fs : DepFS) (fuel : Nat) (source_path : String)
    (deps : List String) : List String × Option (Except Error Unit) :=
  match fs.manifest source_path with
  | none => (deps, some (.error .ManifestFailure))
  | some entries => dep_entries_loop fs (dep_descend fs fuel) source_path entries deps

/-- The number of existing directories not yet in the set: the measure that
shrinks at every descent and bounds the recursion depth. -/
def freshDirs (fs : DepFS) (deps : List String) : Nat :=
  (fs.dirs.filter (fun d => decide (d ∉ deps))).length

/-! ## Theorems -/

/-- Helper: dropping every leading `c` leaves a list whose head is not `c`. -/
theorem head_dropWhile_ne (c : Char) :
    ∀ l : List Char, (l.dropWhile (fun x => x = c)).head? ≠ some c := by
  intro l
  induction l with
  | nil => simp
  | cons a l ih =>
    by_cases h : a = c
    · simpa [List.dropWhile_cons, h] using ih
    · simp [List.dropWhile_cons, h]

/-- C8: the derived output artifact filename is the package name with every
`-` replaced by `_` followed by the `.wasm` extension; for package name
`my-contract` it is exactly `my_contract.wasm`; and the renaming never
introduces a space into a name that has none. -/
theorem artifact_naming :
    (∀ name : String,
      wasm_file name = rustReplaceChar '-' '_' name ++ ".wasm") ∧
    wasm_file "my-contract" = "my_contract.wasm" ∧
    (∀ name : String, ' ' ∉ name.data → ' ' ∉ (wasm_file name).data) := by
  refine ⟨fun name => ?_, by decide, fun name h hmem => ?_⟩
  · apply String.ext
    simp only [wasm_file, rustReplaceChar, String.data_append, List.map_append]
    congr 1
  · simp only [wasm_file, rustReplaceChar, String.data_append] at hmem
    rcases List.mem_map.mp hmem with ⟨ch, hch, hfc⟩
    by_cases hd : ch = '-'
    · rw [if_pos hd] at hfc
      exact absurd hfc (by decide)
    · rw [if_neg hd] at hfc
      subst hfc
      rcases List.mem_append.mp hch with h1 | h1
      · exact h h1
      · exact absurd h1 (by decide)

/-- C8 witness: instantiating the no-space-introduced part at
`my-contract`. -/
theorem artifact_naming_witness :
    ' ' ∉ (wasm_file "my-contract").data :=
  artifact_naming.2.2 "my-contract" (by decide)

/-- C7 counterexample: a pull whose first status event reports an error but
whose second does not (so the pull does not report an error for every
returned status event) nevertheless fails with the daemon-failure error. -/
theorem pull_image_counterexample :
    pull_image (some [{ error := some "pull error" }, { error := none }])
        "mainnet01" = .error .DockerDaemonFailure ∧
    ¬ (∀ info ∈ [({ error := some "pull error" } : CreateImageInfo),
        { error := none }], info.error.isSome = true) :=
  ⟨rfl, by decide⟩

/-- C7 (amended): `pull_image` either fails with `DockerDaemonFailure` or
succeeds with the concrete image reference for the requested tag, and it
succeeds exactly when the daemon is reachable, at least one status event is
returned, and the FIRST returned status event carries no error (later
events are never examined). -/
theorem pull_image_characterization (daemon : Option (List CreateImageInfo))
    (tag : String) :
    (pull_image daemon tag = .error .DockerDaemonFailure ∨
      pull_image daemon tag = .ok (PCHAIN_COMPILE_IMAGE ++ ":" ++ tag)) ∧
    (pull_image daemon tag = .ok (PCHAIN_COMPILE_IMAGE ++ ":" ++ tag) ↔
      ∃ first rest, daemon = some (first :: rest) ∧ first.error = none) := by
  match daemon with
  | none => simp [pull_image]
  | some [] => simp [pull_image]
  | some (first :: rest) =>
    match h : first.error with
    | none =>
      refine ⟨Or.inr (by simp [pull_image, h]), ?_⟩
      simp [pull_image, h]
    | some e =>
      refine ⟨Or.inl (by simp [pull_image, h]), ?_⟩
      simp [pull_image, h]

/-- C9: the archive built by `copy_files` is rooted at the sanitized path
(colons stripped, backslashes to forward slashes, spaces to underscores,
leading separators trimmed — witnessed both pointwise on two concrete paths
and by the no-leading-separator property), and the local temporary archive
file is deleted whenever the upload was attempted, regardless of its
outcome. -/
theorem push_sanitized_root_and_tmp_cleanup :
    (∀ (env : PushEnv) (sp : String),
      (copy_files env sp).tarRoot = save_to_path sp) ∧
    (∀ (env : PushEnv) (sp : String), env.tarCreateOk = true →
      env.fileOpenOk = true → (copy_files env sp).removedTmp = true) ∧
    save_to_path "C:\\Users\\my user\\proj dir" = "C/Users/my_user/proj_dir" ∧
    save_to_path "/home/user/my contract" = "home/user/my_contract" ∧
    (∀ sp : String, ((save_to_path sp).data).head? ≠ some '/') := by
  refine ⟨?_, ?_, by decide, by decide, ?_⟩
  · rintro ⟨tc, fo, up⟩ sp
    cases tc <;> cases fo <;> cases up <;> rfl
  · rintro ⟨tc, fo, up⟩ sp h1 h2
    cases h1; cases h2
    cases up <;> rfl
  · intro sp
    exact head_dropWhile_ne '/' (sanitize_source_path sp).data

/-- C9 witness: with archive creation and read-back succeeding but the
upload failing, the temporary archive is still removed. -/
theorem push_sanitized_root_and_tmp_cleanup_witness :
    (copy_files ⟨true, true, false⟩ "/home/user/my contract").removedTmp = true :=
  push_sanitized_root_and_tmp_cleanup.2.1 ⟨true, true, false⟩
    "/home/user/my contract" rfl rfl

/-- C6 counterexample: with the lock option set but no `Cargo.lock` at the
package root, the primary build command indeed omits `--locked`, but the
lock-file staging command (`mv Cargo.lock /result`) is STILL part of the
post-processing plan, contradicting "no lock-file staging step is
performed". -/
theorem lock_staging_counterexample :
    "--locked" ∉ (build_contracts_plan true false "/code" "code.wasm").primary.cmd ∧
    lock_staging_cmd "/code" ∈ (build_contracts_plan true false "/code" "code.wasm").post :=
  ⟨by decide, by decide⟩

/-- C6 (amended): the primary cargo build command carries `--locked` exactly
when the lock option is set AND `Cargo.lock` exists at the package root,
while the lock-file staging command (`mv Cargo.lock` into the `/result`
staging folder, alongside the artifact) is issued exactly when the lock
option is set — whether or not the lock file exists. -/
theorem lock_flag_and_staging (locked lockExists : Bool) (sp w : String) :
    ("--locked" ∈ (build_contracts_plan locked lockExists sp w).primary.cmd ↔
      locked = true ∧ lockExists = true) ∧
    (lock_staging_cmd sp ∈ (build_contracts_plan locked lockExists sp w).post ↔
      locked = true) := by
  cases locked <;> cases lockExists <;>
    simp [build_contracts_plan, cmd_cargo_build, lock_staging_cmd]

/-- C3: sandbox removal is total over every daemon response (an
already-removed or never-created name just yields the daemon's error
response): it returns either success or `ArtifactRemovalFailure`, issues
exactly one removal request (never a retry), `ArtifactRemovalFailure`'s
detail text describes an otherwise-successful compilation, and the
orchestrator's cleanup returns the already-decided build outcome
unchanged. -/
theorem cleanup_idempotent_and_outcome_preserving :
    (∀ (daemon : String → Except String Unit) (name : String),
      (remove_container daemon name).1 = .ok () ∨
      (remove_container daemon name).1 = .error .ArtifactRemovalFailure) ∧
    (∀ (daemon : String → Except String Unit) (name : String),
      (remove_container daemon name).2 = [(name, remove_option)]) ∧
    Error.detail .ArtifactRemovalFailure =
      "The compilation was successful, but pchain-compile failed to stop its Docker containers. Please remove them manually." ∧
    (∀ (outcome : Except Error String) (daemon : String → Except String Unit)
      (name : String),
      (orchestrator_finish outcome daemon name).1 = outcome ∧
      (orchestrator_finish outcome daemon name).2.2 = [(name, remove_option)]) := by
  refine ⟨?_, fun _ _ => rfl, rfl, fun _ _ _ => ⟨rfl, rfl⟩⟩
  intro daemon name
  unfold remove_container
  cases daemon name <;> simp

/-- C1 counterexample: an execution under a bounded timeout that terminates
with a NON-ZERO exit status (the poll reports not-running with exit code 1)
returns the collected log as a success — `execute` never reads the exit
code — rather than yielding `BuildFailureWithLogs`. -/
theorem execute_nonzero_exit_counterexample :
    execute
      { createExec := .ok (), startExec := .ok .attached,
        collected := .ok "log text",
        polls := [.ok { running := some false, exit_code := some 1 }] }
      true true = .ok "log text" ∧
    execute
      { createExec := .ok (), startExec := .ok .attached,
        collected := .ok "log text",
        polls := [.ok { running := some false, exit_code := some 1 }] }
      true true ≠ .error (.BuildFailureWithLogs "log text") :=
  ⟨rfl, fun h => Except.noConfusion h⟩

/-- C1 (amended): for a command run with a bounded timeout, running past the
bound yields `BuildTimeout`; a running-state poll that cannot reach the
daemon yields `BuildFailureWithLogs` with the log text collected so far,
immediately (any poll sequence starting with a failed inspect); these two
error kinds are distinct; and an execution whose poll reports not-running
within the bound yields the collected logs as success — the exit status is
never inspected. -/
theorem execute_bounded_wait_outcomes (env : ExecEnv) (lo : String)
    (hc : env.createExec = .ok ()) (hs : env.startExec = .ok .attached)
    (hcol : env.collected = .ok lo) :
    (poll_running env.polls = .timedOut →
      execute env true true = .error .BuildTimeout) ∧
    (poll_running env.polls = .inspectFailed →
      execute env true true = .error (.BuildFailureWithLogs lo)) ∧
    (poll_running env.polls = .finished → execute env true true = .ok lo) ∧
    (∀ rest, poll_running (.failed :: rest) = .inspectFailed) ∧
    Error.BuildTimeout ≠ Error.BuildFailureWithLogs lo := by
  have hexec : execute env true true =
      (match poll_running env.polls with
        | .timedOut => .error .BuildTimeout
        | .inspectFailed => .error (.BuildFailureWithLogs lo)
        | .finished => .ok lo) := by
    simp only [execute, hc, hs, hcol, if_true]
  refine ⟨fun h => ?_, fun h => ?_, fun h => ?_, fun _ => rfl,
    fun h => Error.noConfusion h⟩ <;> rw [hexec, h]

/-- C1 witness: a concrete environment whose poll budget is exhausted while
the execution is still running yields `BuildTimeout`. -/
theorem execute_bounded_wait_outcomes_witness :
    execute
      { createExec := .ok (), startExec := .ok .attached, collected := .ok "L",
        polls := [] } true true = .error .BuildTimeout :=
  (execute_bounded_wait_outcomes
    { createExec := .ok (), startExec := .ok .attached, collected := .ok "L",
      polls := [] } "L" rfl rfl rfl).1 rfl

/-- Helper for C2: under the tar-format invariants (header size equals
content length for readable entries; directory entries have empty content),
the extraction chain keeps exactly the non-empty regular-file entries. -/
theorem files_list_exact :
    ∀ entries : List TarEntry,
      (∀ e ∈ entries, e.ok = true) →
      (∀ e ∈ entries, e.size = e.content.length) →
      (∀ e ∈ entries, e.etype = .directory → e.content = []) →
      ((entries.filter (fun e => e.ok)).filter (fun e => 0 < e.size)).filterMap
          (fun e => if e.content.isEmpty then none
            else some (tarFileName e.path, e.content)) =
        (entries.filter
            (fun e => e.etype == TarEntryType.file && !e.content.isEmpty)).map
          (fun e => (tarFileName e.path, e.content)) := by
  intro entries
  induction entries with
  | nil => intro _ _ _; rfl
  | cons e es ih =>
    intro hok hsize hdir
    have ihe := ih (fun x hx => hok x (List.mem_cons_of_mem _ hx))
      (fun x hx => hsize x (List.mem_cons_of_mem _ hx))
      (fun x hx => hdir x (List.mem_cons_of_mem _ hx))
    have he : e.ok = true := hok e (List.mem_cons_self _ _)
    have hs : e.size = e.content.length := hsize e (List.mem_cons_self _ _)
    rcases hemp : e.content with _ | ⟨b, bs⟩
    · have hz : decide (0 < e.size) = false := by simp [hs, hemp]
      have hq : (e.etype == TarEntryType.file && !e.content.isEmpty) = false := by
        simp [hemp]
      simp only [List.filter_cons, he, hz, hq, eq_self_iff_true, if_true,
        Bool.false_eq_true, if_false]
      exact ihe
    · have hpos : decide (0 < e.size) = true := by simp [hs, hemp]
      have hfile : e.etype = TarEntryType.file := by
        cases het : e.etype
        · rfl
        · have hcon := hdir e (List.mem_cons_self _ _) het
          rw [hemp] at hcon
          exact absurd hcon (by simp)
      have hq : (e.etype == TarEntryType.file && !e.content.isEmpty) = true := by
        simp [hfile, hemp]
      have hg : (if e.content.isEmpty = true then none
          else some (tarFileName e.path, e.content)) =
          some (tarFileName e.path, e.content) := by
        rw [hemp]; rfl
      simp only [List.filter_cons, he, hpos, hq, eq_self_iff_true, if_true,
        List.filterMap_cons, hg, List.map_cons]
      exact congrArg _ ihe

/-- C2: artifact retrieval returns `(filename, content)` pairs for exactly
the non-empty regular-file entries of the downloaded archive (directories
and zero-byte entries are dropped); zero extracted files yields
`BuildFailureWithLogs` with the accumulated build log instead of an empty
success; and a failure to create or write a file at the destination is the
distinct `BuildFailure` error with a filesystem-access message. -/
theorem artifact_retrieval_exactness (entries : List TarEntry) (fsd : DestFS)
    (log : String) (store : String → Option (List Nat))
    (hok : ∀ e ∈ entries, e.ok = true)
    (hsize : ∀ e ∈ entries, e.size = e.content.length)
    (hdir : ∀ e ∈ entries, e.etype = .directory → e.content = []) :
    files_from_tar_gz (.ok entries) =
      .ok ((entries.filter
          (fun e => e.etype == TarEntryType.file && !e.content.isEmpty)).map
        (fun e => (tarFileName e.path, e.content))) ∧
    (files_from_tar_gz (.ok entries) = .ok [] →
      copy_files_from (.data (.ok entries)) fsd log store =
        .error (.BuildFailureWithLogs log)) ∧
    (∀ name content rest st, fsd.createOk name = false →
      write_files fsd ((name, content) :: rest) st =
        .error (.BuildFailure "Fail to access to destination path.")) ∧
    (∀ name content rest st, fsd.createOk name = true →
      fsd.writeOk name = false →
      write_files fsd ((name, content) :: rest) st =
        .error (.BuildFailure "Fail to write the compiled contract to destination path.")) ∧
    (∀ m l, Error.BuildFailure m ≠ Error.BuildFailureWithLogs l) := by
  refine ⟨?_, ?_, ?_, ?_, fun m l h => Error.noConfusion h⟩
  · simp only [files_from_tar_gz, Except.ok.injEq]
    exact files_list_exact entries hok hsize hdir
  · intro h
    simp [copy_files_from, h]
  · intro name content rest st h
    simp [write_files, h]
  · intro name content rest st h1 h2
    simp [write_files, h1, h2]

/-- C2 witness: one readable non-empty regular-file entry is returned as its
base name and content. -/
theorem artifact_retrieval_exactness_witness :
    files_from_tar_gz (.ok [⟨true, ["result", "done.wasm"], .file, 1, [7]⟩]) =
      .ok [("done.wasm", [7])] :=
  ((artifact_retrieval_exactness [⟨true, ["result", "done.wasm"], .file, 1, [7]⟩]
      ⟨fun _ => true, fun _ => true⟩ "" (fun _ => none)
      (by decide) (by decide) (by decide)).1).trans (by decide)

/-- C10: extraction flattens the archive's directory structure — every
returned pair carries only the final path component of some archive entry
as its filename — and concretely, two non-empty file entries from different
archive directories sharing the base name `x.wasm` are both returned under
that base name, and after the save loop the destination directory holds the
LATER entry's content at `x.wasm` (the first write is overwritten). -/
theorem retrieval_flattens_paths :
    (∀ (parsed : Except String (List TarEntry))
      (result : List (String × List Nat)) (pr : String × List Nat),
      files_from_tar_gz parsed = .ok result → pr ∈ result →
      ∃ entries e, parsed = .ok entries ∧ e ∈ entries ∧
        pr = (tarFileName e.path, e.content)) ∧
    files_from_tar_gz (.ok [⟨true, ["a", "x.wasm"], .file, 1, [1]⟩,
        ⟨true, ["b", "x.wasm"], .file, 1, [2]⟩]) =
      .ok [("x.wasm", [1]), ("x.wasm", [2])] ∧
    storeAfter (copy_files_from
        (.data (.ok [⟨true, ["a", "x.wasm"], .file, 1, [1]⟩,
          ⟨true, ["b", "x.wasm"], .file, 1, [2]⟩]))
        ⟨fun _ => true, fun _ => true⟩ "log" (fun _ => none)) "x.wasm" =
      some (some [2]) := by
  refine ⟨?_, by decide, by decide⟩
  intro parsed result pr hres hmem
  match parsed with
  | .error e => exact absurd hres (by simp [files_from_tar_gz])
  | .ok entries =>
    refine ⟨entries, ?_⟩
    simp only [files_from_tar_gz, Except.ok.injEq] at hres
    subst hres
    rcases List.mem_filterMap.mp hmem with ⟨e, he, hge⟩
    have he1 : e ∈ entries :=
      List.mem_of_mem_filter (List.mem_of_mem_filter he)
    refine ⟨e, rfl, he1, ?_⟩
    rcases hemp : e.content.isEmpty with _ | _
    · rw [hemp] at hge
      simp only [Bool.false_eq_true, if_false, Option.some.injEq] at hge
      exact hge.symm
    · rw [hemp] at hge
      simp at hge

/-- C10 witness: instantiating the flattening part at the concrete
two-entry archive. -/
theorem retrieval_flattens_paths_witness :
    ∃ entries e,
      (Except.ok [(⟨true, ["a", "x.wasm"], .file, 1, [1]⟩ : TarEntry),
        ⟨true, ["b", "x.wasm"], .file, 1, [2]⟩] : Except String (List TarEntry)) =
        .ok entries ∧ e ∈ entries ∧
      (("x.wasm", [1]) : String × List Nat) = (tarFileName e.path, e.content) :=
  retrieval_flattens_paths.1
    (.ok [⟨true, ["a", "x.wasm"], .file, 1, [1]⟩,
      ⟨true, ["b", "x.wasm"], .file, 1, [2]⟩])
    [("x.wasm", [1]), ("x.wasm", [2])] ("x.wasm", [1]) (by decide) (by decide)

/-! ### Dependency-resolver lemmas -/

/-- A successful `get_absolute_path` returns the canonicalization output. -/
theorem get_absolute_path_ok (fs : DepFS) (q v : String)
    (h : get_absolute_path fs q = .ok v) : fs.canon q = some v := by
  unfold get_absolute_path at h
  cases hc : fs.canon q with
  | none => rw [hc] at h; exact Except.noConfusion h
  | some p =>
    simp only [hc] at h
    by_cases hw : fs.writable p = true
    · rw [if_pos hw] at h
      injection h with h
      rw [h]
    · rw [if_neg hw] at h
      exact Except.noConfusion h

/-- A failing `get_absolute_path` always fails with `InvalidDependencyPath`. -/
theorem get_absolute_path_error (fs : DepFS) (q : String) (e : Error)
    (h : get_absolute_path fs q = .error e) : e = .InvalidDependencyPath := by
  unfold get_absolute_path at h
  cases hc : fs.canon q with
  | none =>
    rw [hc] at h
    injection h with h
    exact h.symm
  | some p =>
    simp only [hc] at h
    by_cases hw : fs.writable p = true
    · rw [if_pos hw] at h
      exact Except.noConfusion h
    · rw [if_neg hw] at h
      injection h with h
      exact h.symm

/-- The entry loop only ever grows the dependency set (by consing), for any
descent function that itself only grows it. -/
theorem dep_entries_loop_suffix (fs : DepFS)
    (descend : String → List String → List String × Option (Except Error Unit))
    (hdesc : ∀ dir deps, deps <:+ (descend dir deps).1) (root : String) :
    ∀ (l : List (Option String)) (deps : List String),
      deps <:+ (dep_entries_loop fs descend root l deps).1 := by
  intro l
  induction l with
  | nil => intro deps; exact List.suffix_rfl
  | cons o rest ih =>
    intro deps
    match o with
    | none =>
      simpa only [dep_entries_loop] using ih deps
    | some p =>
      simp only [dep_entries_loop]
      cases h2 : get_absolute_path fs (path_join root p) with
      | error e => exact List.suffix_rfl
      | ok v2 =>
        by_cases hmem : derived_path fs p v2 ∈ deps
        · simp only [if_pos hmem]
          exact ih deps
        · simp only [if_neg hmem]
          cases hde : descend (derived_path fs p v2) (derived_path fs p v2 :: deps) with
          | mk d o =>
            have h1 : (derived_path fs p v2 :: deps) <:+ d := by
              have hh := hdesc (derived_path fs p v2) (derived_path fs p v2 :: deps)
              rwa [hde] at hh
            cases o with
            | none => exact (List.suffix_cons _ _).trans h1
            | some r => exact ((List.suffix_cons _ _).trans h1).trans (ih d)

/-- The full descent only ever grows the dependency set. -/
theorem dep_descend_suffix (fs : DepFS) :
    ∀ (fuel : Nat) (dir : String) (deps : List String),
      deps <:+ (dep_descend fs fuel dir deps).1 := by
  intro fuel
  induction fuel with
  | zero => intro dir deps; exact List.suffix_rfl
  | succ fuel ih =>
    intro dir deps
    simp only [dep_descend]
    split
    · exact List.suffix_rfl
    · exact dep_entries_loop_suffix fs (dep_descend fs fuel)
        (fun d dd => ih d dd) dir _ deps

/-- The entry loop preserves distinctness of the dependency set: an entry is
inserted only when not already present. -/
theorem dep_entries_loop_nodup (fs : DepFS)
    (descend : String → List String → List String × Option (Except Error Unit))
    (hdesc : ∀ dir deps, deps.Nodup → (descend dir deps).1.Nodup)
    (root : String) :
    ∀ (l : List (Option String)) (deps : List String),
      deps.Nodup → (dep_entries_loop fs descend root l deps).1.Nodup := by
  intro l
  induction l with
  | nil => intro deps h; exact h
  | cons o rest ih =>
    intro deps h
    match o with
    | none => simpa only [dep_entries_loop] using ih deps h
    | some p =>
      simp only [dep_entries_loop]
      cases h2 : get_absolute_path fs (path_join root p) with
      | error e => exact h
      | ok v2 =>
        by_cases hmem : derived_path fs p v2 ∈ deps
        · simp only [if_pos hmem]
          exact ih deps h
        · simp only [if_neg hmem]
          have hcons : (derived_path fs p v2 :: deps).Nodup :=
            List.nodup_cons.mpr ⟨hmem, h⟩
          cases hde : descend (derived_path fs p v2) (derived_path fs p v2 :: deps) with
          | mk d o =>
            have hd : d.Nodup := by
              have hh := hdesc (derived_path fs p v2) (derived_path fs p v2 :: deps) hcons
              rwa [hde] at hh
            cases o with
            | none => exact hd
            | some r => exact ih d hd

/-- The full descent preserves distinctness of the dependency set. -/
theorem dep_descend_nodup (fs : DepFS) :
    ∀ (fuel : Nat) (dir : String) (deps : List String),
      deps.Nodup → (dep_descend fs fuel dir deps).1.Nodup := by
  intro fuel
  induction fuel with
  | zero => intro dir deps h; exact h
  | succ fuel ih =>
    intro dir deps h
    simp only [dep_descend]
    split
    · exact h
    · exact dep_entries_loop_nodup fs (dep_descend fs fuel)
        (fun d dd => ih d dd) dir _ deps h

/-- Pointwise-implied filters have no longer filtrate. -/
theorem filter_length_mono {α : Type} (l : List α) (p q : α → Bool)
    (h : ∀ a, p a = true → q a = true) :
    (l.filter p).length ≤ (l.filter q).length :=
  (List.monotone_filter_right l fun a ha => h a ha).length_le

/-- A filter is strictly shorter when some member satisfies only the weaker
predicate. -/
theorem filter_length_strict {α : Type} (p q : α → Bool)
    (h : ∀ a, p a = true → q a = true) :
    ∀ (l : List α) (x : α), x ∈ l → p x = false → q x = true →
      (l.filter p).length < (l.filter q).length := by
  intro l
  induction l with
  | nil => intro x hx _ _; exact absurd hx (List.not_mem_nil x)
  | cons a l ih =>
    intro x hx hpx hqx
    by_cases hax : a = x
    · subst hax
      simp only [List.filter_cons, hpx, hqx, Bool.false_eq_true, if_false,
        eq_self_iff_true, if_true, List.length_cons]
      exact Nat.lt_succ_of_le (filter_length_mono l p q h)
    · have hx2 : x ∈ l := List.mem_of_ne_of_mem (fun hh => hax hh.symm) hx
      by_cases hpa : p a = true
      · have hqa := h a hpa
        simp only [List.filter_cons, hpa, hqa, eq_self_iff_true, if_true,
          List.length_cons]
        exact Nat.succ_lt_succ (ih x hx2 hpx hqx)
      · have hpa2 : p a = false := Bool.eq_false_iff.mpr hpa
        by_cases hqa : q a = true
        · simp only [List.filter_cons, hpa2, hqa, Bool.false_eq_true, if_false,
            eq_self_iff_true, if_true, List.length_cons]
          exact Nat.lt_succ_of_lt (ih x hx2 hpx hqx)
        · have hqa2 : q a = false := Bool.eq_false_iff.mpr hqa
          simp only [List.filter_cons, hpa2, hqa2, Bool.false_eq_true, if_false]
          exact ih x hx2 hpx hqx

/-- An existing directory missing from the set makes the count positive. -/
theorem freshDirs_pos (fs : DepFS) (deps : List String) (x : String)
    (hx : x ∈ fs.dirs) (hnx : x ∉ deps) : 0 < freshDirs fs deps := by
  have hmem : x ∈ fs.dirs.filter (fun d => decide (d ∉ deps)) :=
    List.mem_filter.mpr ⟨hx, by simpa using hnx⟩
  exact List.length_pos.mpr (List.ne_nil_of_mem hmem)

/-- Inserting a fresh existing directory strictly shrinks the count. -/
theorem freshDirs_insert_lt (fs : DepFS) (deps : List String) (x : String)
    (hx : x ∈ fs.dirs) (hnx : x ∉ deps) :
    freshDirs fs (x :: deps) < freshDirs fs deps := by
  apply filter_length_strict (fun d => decide (d ∉ x :: deps))
    (fun d => decide (d ∉ deps))
  · intro a ha
    simp only [decide_eq_true_eq] at ha ⊢
    exact fun hmem => ha (List.mem_cons_of_mem _ hmem)
  · exact hx
  · simp
  · simpa using hnx

/-- Growing the set cannot increase the count. -/
theorem freshDirs_mono (fs : DepFS) (deps d : List String)
    (h : ∀ a, a ∈ deps → a ∈ d) : freshDirs fs d ≤ freshDirs fs deps := by
  apply filter_length_mono
  intro a ha
  simp only [decide_eq_true_eq] at ha ⊢
  exact fun hmem => ha (h a hmem)

/-- The derived path of a dependency entry is an existing directory. -/
theorem derived_path_mem (fs : DepFS)
    (hcanon : ∀ s p, fs.canon s = some p → p ∈ fs.dirs) (root p v2 : String)
    (h2 : get_absolute_path fs (path_join root p) = .ok v2) :
    derived_path fs p v2 ∈ fs.dirs := by
  unfold derived_path
  cases h1 : get_absolute_path fs p with
  | ok v1 => exact hcanon p v1 (get_absolute_path_ok fs p v1 h1)
  | error e => exact hcanon _ v2 (get_absolute_path_ok fs _ v2 h2)

/-- With fuel at least the number of not-yet-visited existing directories,
the resolver never exhausts its fuel: the embedded recursion terminates. -/
theorem dep_no_fuel_out (fs : DepFS)
    (hcanon : ∀ s p, fs.canon s = some p → p ∈ fs.dirs) :
    ∀ fuel : Nat,
      (∀ dir deps, freshDirs fs deps < fuel →
        (dep_descend fs fuel dir deps).2 ≠ none) ∧
      (∀ (root : String) (l : List (Option String)) (deps : List String),
        freshDirs fs deps ≤ fuel →
        (dep_entries_loop fs (dep_descend fs fuel) root l deps).2 ≠ none) := by
  intro fuel
  induction fuel with
  | zero =>
    constructor
    · intro dir deps h
      exact absurd h (Nat.not_lt_zero _)
    · intro root l
      induction l with
      | nil => intro deps _; simp [dep_entries_loop]
      | cons o rest ihl =>
        intro deps hle
        match o with
        | none => simpa only [dep_entries_loop] using ihl deps hle
        | some p =>
          simp only [dep_entries_loop]
          cases h2 : get_absolute_path fs (path_join root p) with
          | error e => simp
          | ok v2 =>
            by_cases hmem : derived_path fs p v2 ∈ deps
            · simp only [if_pos hmem]
              exact ihl deps hle
            · exfalso
              have hdm := derived_path_mem fs hcanon root p v2 h2
              have hpos := freshDirs_pos fs deps _ hdm hmem
              exact Nat.lt_irrefl 0 (Nat.lt_of_lt_of_le hpos hle)
  | succ fuel ih =>
    have hdesc : ∀ dir deps, freshDirs fs deps < fuel + 1 →
        (dep_descend fs (fuel + 1) dir deps).2 ≠ none := by
      intro dir deps h
      simp only [dep_descend]
      cases hm : fs.manifest dir with
      | none => simp
      | some entries => exact ih.2 dir entries deps (Nat.lt_succ_iff.mp h)
    refine ⟨hdesc, ?_⟩
    intro root l
    induction l with
    | nil => intro deps _; simp [dep_entries_loop]
    | cons o rest ihl =>
      intro deps hle
      match o with
      | none => simpa only [dep_entries_loop] using ihl deps hle
      | some p =>
        simp only [dep_entries_loop]
        cases h2 : get_absolute_path fs (path_join root p) with
        | error e => simp
        | ok v2 =>
          by_cases hmem : derived_path fs p v2 ∈ deps
          · simp only [if_pos hmem]
            exact ihl deps hle
          · simp only [if_neg hmem]
            have hdm := derived_path_mem fs hcanon root p v2 h2
            have hlt : freshDirs fs (derived_path fs p v2 :: deps) < fuel + 1 :=
              Nat.lt_of_lt_of_le (freshDirs_insert_lt fs deps _ hdm hmem) hle
            have hnn := hdesc (derived_path fs p v2)
              (derived_path fs p v2 :: deps) hlt
            cases hde : dep_descend fs (fuel + 1) (derived_path fs p v2)
                (derived_path fs p v2 :: deps) with
            | mk d o2 =>
              rw [hde] at hnn
              cases o2 with
              | none => exact absurd rfl hnn
              | some r =>
                have hsf : (derived_path fs p v2 :: deps) <:+ d := by
                  have hh := dep_descend_suffix fs (fuel + 1)
                    (derived_path fs p v2) (derived_path fs p v2 :: deps)
                  rwa [hde] at hh
                have hsub : freshDirs fs d ≤ fuel + 1 := by
                  refine le_trans (freshDirs_mono fs deps d ?_) hle
                  intro a ha
                  exact hsf.subset (List.mem_cons_of_mem _ ha)
                exact ihl d hsub

/-- Once the fuel does not run out, adding more fuel leaves the result
unchanged. -/
theorem dep_fuel_stable (fs : DepFS) :
    ∀ fuel : Nat,
      (∀ dir deps, (dep_descend fs fuel dir deps).2 ≠ none →
        dep_descend fs (fuel + 1) dir deps = dep_descend fs fuel dir deps) ∧
      (∀ (root : String) (l : List (Option String)) (deps : List String),
        (dep_entries_loop fs (dep_descend fs fuel) root l deps).2 ≠ none →
        dep_entries_loop fs (dep_descend fs (fuel + 1)) root l deps =
          dep_entries_loop fs (dep_descend fs fuel) root l deps) := by
  intro fuel
  induction fuel with
  | zero =>
    constructor
    · intro dir deps h
      exact absurd rfl h
    · intro root l
      induction l with
      | nil => intro deps _; rfl
      | cons o rest ihl =>
        intro deps h
        match o with
        | none =>
          simp only [dep_entries_loop] at h ⊢
          exact ihl deps h
        | some p =>
          simp only [dep_entries_loop] at h ⊢
          cases hres : get_absolute_path fs (path_join root p) with
          | error e => rfl
          | ok v2 =>
            simp only [hres] at h
            by_cases hmem : derived_path fs p v2 ∈ deps
            · simp only [if_pos hmem] at h ⊢
              exact ihl deps h
            · simp only [if_neg hmem] at h
              exact absurd rfl h
  | succ fuel ih =>
    have hdesc : ∀ dir deps, (dep_descend fs (fuel + 1) dir deps).2 ≠ none →
        dep_descend fs (fuel + 2) dir deps = dep_descend fs (fuel + 1) dir deps := by
      intro dir deps h
      simp only [dep_descend] at h ⊢
      cases hm : fs.manifest dir with
      | none => rfl
      | some entries =>
        simp only [hm] at h
        exact ih.2 dir entries deps h
    refine ⟨hdesc, ?_⟩
    intro root l
    induction l with
    | nil => intro deps _; rfl
    | cons o rest ihl =>
      intro deps h
      match o with
      | none =>
        simp only [dep_entries_loop] at h ⊢
        exact ihl deps h
      | some p =>
        simp only [dep_entries_loop] at h ⊢
        cases hres : get_absolute_path fs (path_join root p) with
        | error e => rfl
        | ok v2 =>
          simp only [hres] at h
          by_cases hmem : derived_path fs p v2 ∈ deps
          · simp only [if_pos hmem] at h ⊢
            exact ihl deps h
          · simp only [if_neg hmem] at h ⊢
            cases hde : dep_descend fs (fuel + 1) (derived_path fs p v2)
                (derived_path fs p v2 :: deps) with
            | mk d o2 =>
              rw [hde] at h
              cases o2 with
              | none => exact absurd rfl h
              | some r =>
                have hne : (dep_descend fs (fuel + 1) (derived_path fs p v2)
                    (derived_path fs p v2 :: deps)).2 ≠ none := by
                  rw [hde]
                  simp
                rw [hdesc _ _ hne, hde]
                exact ihl d h

/-- The count over the empty visited set is the number of directories. -/
theorem freshDirs_nil (fs : DepFS) : freshDirs fs [] = fs.dirs.length := by
  simp [freshDirs]

/-- C4: over any filesystem with finitely many directories (every
canonicalization output lies in `dirs`) — which includes self-referential,
mutually-referential (cyclic) and diamond-shaped local path dependency
graphs — dependency resolution terminates: once the recursion-depth budget
reaches the number of directories the embedded recursion never exhausts it
and the result is budget-independent; and the resolver visits each absolute
path at most once — the returned set is duplicate-free, because a
dependency directory already present in the set is not re-visited. -/
theorem dependency_resolution_terminates (fs : DepFS) (fuel : Nat)
    (root : String) (hcanon : ∀ s p, fs.canon s = some p → p ∈ fs.dirs)
    (hfuel : fs.dirs.length ≤ fuel) :
    (get_dependency_paths fs fuel root []).2 ≠ none ∧
    (get_dependency_paths fs fuel root []).1.Nodup ∧
    (∀ f2, fuel ≤ f2 →
      get_dependency_paths fs f2 root [] = get_dependency_paths fs fuel root []) := by
  refine ⟨?_, ?_, ?_⟩
  · unfold get_dependency_paths
    cases hm : fs.manifest root with
    | none => simp
    | some entries =>
      exact (dep_no_fuel_out fs hcanon fuel).2 root entries []
        (by rw [freshDirs_nil]; exact hfuel)
  · unfold get_dependency_paths
    cases hm : fs.manifest root with
    | none => simp
    | some entries =>
      exact dep_entries_loop_nodup fs (dep_descend fs fuel)
        (fun d dd => dep_descend_nodup fs fuel d dd) root entries []
        List.nodup_nil
  · intro f2 h2
    induction f2, h2 using Nat.le_induction with
    | base => rfl
    | succ f2 hf2 ih =>
      rw [← ih]
      unfold get_dependency_paths
      cases hm : fs.manifest root with
      | none => rfl
      | some entries =>
        apply (dep_fuel_stable fs f2).2 root entries []
        exact (dep_no_fuel_out fs hcanon f2).2 root entries []
          (by rw [freshDirs_nil]; exact le_trans hfuel hf2)

/-- A concrete mutually-referential (cyclic) dependency graph: `/a` and `/b`
each declare a local path dependency on the other. -/
def depFSCyclic : DepFS :=
  { dirs := ["/a", "/b"]
    manifest := fun s =>
      if s = "/a" then some [some "/b"]
      else if s = "/b" then some [some "/a"] else none
    canon := fun s => if s = "/a" ∨ s = "/b" then some s else none
    writable := fun _ => true }

/-- The cyclic example filesystem canonicalizes into its directory
universe. -/
theorem depFSCyclic_canon :
    ∀ s p, depFSCyclic.canon s = some p → p ∈ depFSCyclic.dirs := by
  intro s p h
  by_cases hs : s = "/a" ∨ s = "/b"
  · simp only [depFSCyclic, if_pos hs] at h
    injection h with h
    subst h
    rcases hs with h1 | h1 <;> rw [h1] <;> simp [depFSCyclic]
  · simp only [depFSCyclic, if_neg hs] at h
    exact Option.noConfusion h

/-- C4 witness: on the concrete cyclic graph the resolver terminates (with
budget 2, the number of directories) and returns a duplicate-free set. -/
theorem dependency_resolution_terminates_witness :
    (get_dependency_paths depFSCyclic 2 "/a" []).2 ≠ none ∧
    (get_dependency_paths depFSCyclic 2 "/a" []).1.Nodup :=
  ⟨(dependency_resolution_terminates depFSCyclic 2 "/a" depFSCyclic_canon
      (by decide)).1,
    (dependency_resolution_terminates depFSCyclic 2 "/a" depFSCyclic_canon
      (by decide)).2.1⟩

/-- The self-referential package: `/r` declares a local path dependency on
`/r` itself. -/
def depFSSelf : DepFS :=
  { dirs := ["/r"]
    manifest := fun s => if s = "/r" then some [some "/r"] else none
    canon := fun s => if s = "/r" then some "/r" else none
    writable := fun _ => true }

/-- A dependency whose path `d` resolves as given (e.g. against the process
working directory) while its root-relative form `/r/d` does not resolve. -/
def depFSEagerJoin : DepFS :=
  { dirs := ["/cwd/d"]
    manifest := fun s => if s = "/r" then some [some "d"] else none
    canon := fun s => if s = "d" then some "/cwd/d" else none
    writable := fun _ => true }

/-- C5 counterexample: (i) with a self-referential path dependency the
returned set DOES contain the package root `/r`; (ii) with a dependency
path that resolves as given but whose root-relative form does not resolve,
resolution fails with `InvalidDependencyPath` instead of keeping the
successful as-given resolution — because the root-relative probe inside
`unwrap_or(..?)` is evaluated eagerly and its error propagates. -/
theorem dependency_path_claim_counterexample :
    "/r" ∈ (get_dependency_paths depFSSelf 1 "/r" []).1 ∧
    get_absolute_path depFSEagerJoin "d" = .ok "/cwd/d" ∧
    get_dependency_paths depFSEagerJoin 1 "/r" [] =
      ([], some (.error .InvalidDependencyPath)) :=
  ⟨by decide, rfl, rfl⟩

/-- C5 (amended): every resolution failure carries `InvalidDependencyPath`;
the loop on a path entry fails as soon as the ROOT-RELATIVE resolution
fails (even when the as-given resolution succeeded, since the `unwrap_or`
argument is evaluated eagerly and its `?` propagates); when the
root-relative resolution succeeds the derived path is the as-given result
when available, otherwise the root-relative one; and a freshly derived
dependency is in the returned set no matter how the recursion into it
ends — a recursion failure is swallowed.  (The returned set can therefore
contain the package root itself, e.g. for a self-referential dependency:
see the counterexample.) -/
theorem dependency_path_resolution (fs : DepFS) (fuel : Nat) (root p : String)
    (rest : List (Option String)) (deps : List String) :
    (∀ q e, get_absolute_path fs q = .error e → e = .InvalidDependencyPath) ∧
    (∀ e, get_absolute_path fs (path_join root p) = .error e →
      dep_entries_loop fs (dep_descend fs fuel) root (some p :: rest) deps =
        (deps, some (.error e))) ∧
    (∀ v1 v2, get_absolute_path fs p = .ok v1 → derived_path fs p v2 = v1) ∧
    (∀ v2 e, get_absolute_path fs p = .error e → derived_path fs p v2 = v2) ∧
    (∀ v2, get_absolute_path fs (path_join root p) = .ok v2 →
      derived_path fs p v2 ∉ deps →
      derived_path fs p v2 ∈
        (dep_entries_loop fs (dep_descend fs fuel) root (some p :: rest) deps).1) := by
  refine ⟨get_absolute_path_error fs, ?_, ?_, ?_, ?_⟩
  · intro e h
    simp only [dep_entries_loop, h]
  · intro v1 v2 h1
    simp only [derived_path, h1]
  · intro v2 e h1
    simp only [derived_path, h1]
  · intro v2 h2 hmem
    simp only [dep_entries_loop, h2, if_neg hmem]
    cases hde : dep_descend fs fuel (derived_path fs p v2)
        (derived_path fs p v2 :: deps) with
    | mk d o =>
      have hsf : (derived_path fs p v2 :: deps) <:+ d := by
        have hh := dep_descend_suffix fs fuel (derived_path fs p v2)
          (derived_path fs p v2 :: deps)
        rwa [hde] at hh
      have hdm : derived_path fs p v2 ∈ d := hsf.subset (List.mem_cons_self _ _)
      cases o with
      | none => exact hdm
      | some r =>
        have hsf2 := dep_entries_loop_suffix fs (dep_descend fs fuel)
          (fun dd ss => dep_descend_suffix fs fuel dd ss) root rest d
        exact hsf2.subset hdm

/-- C5 witness: the freshly derived self-referential dependency `/r` is in
the returned set even though the recursion into it makes no progress. -/
theorem dependency_path_resolution_witness :
    derived_path depFSSelf "/r" "/r" ∈
      (dep_entries_loop depFSSelf (dep_descend depFSSelf 0) "/r" [some "/r"]
        []).1 :=
  (dependency_path_resolution depFSSelf 0 "/r" "/r" [] []).2.2.2.2 "/r"
    (by decide) (by decide)

end PchainCompile
